import Mathlib

/-!
Shallow embedding of src/miner.js (minerkagecoin): block assembly with
reward-transaction injection, the parallel proof-of-work nonce search,
the coordinator that collects worker results, the submission payloads,
the retry loop, and the periodic scheduling trigger.

The SHA-256 hex digest produced by Node's crypto module is external
library code, so it is modelled as an explicit function parameter
H : String → String mapping the hashed string to its hex digest.
The unbounded do-while nonce loop (miner.js lines 150-154) is embedded
with an explicit fuel argument: a result of none means the loop has not
terminated within fuel iterations, mirroring a worker promise that has
not yet resolved.
-/

namespace Miner

/-- Result object returned by a single mining task (miner.js line 156):
a nonce together with the hex digest computed for it. -/
structure MiningResult where
  nonce : Nat
  hash : String
  deriving DecidableEq

/-- Transactions are opaque application records (spec section 3).  The one
shape the miner itself constructs is the reward transaction pushed in
mineBlock (miner.js lines 84-89), with fields Holly$, Transmitter, Target
and BlockReward; all other transactions come from the pending-transactions
endpoint and are carried around as opaque payloads. -/
inductive Transaction where
  | rewardTx : Nat → String → String → Bool → Transaction
  | pendingTx : String → Transaction
  deriving DecidableEq

/-- The mined block assembled by mineProofOfWorkParallel (miner.js line 138):
transactions, nonce and hash. -/
structure MinedBlock where
  transactions : List Transaction
  nonce : Nat
  hash : String
  deriving DecidableEq

/-- JSON-ish values used to model the request bodies posted with axios. -/
inductive Jval where
  | jstr : String → Jval
  | jnum : Nat → Jval
  | jtxs : List Transaction → Jval
  deriving DecidableEq

/-- Number of parallel mining tasks (miner.js line 20). -/
def parallelThreads : Nat := 4

/-- Initial value of the global difficulty variable (miner.js line 17). -/
def initialDifficulty : Nat := 4

/-- Interval of the periodic mining trigger in milliseconds (miner.js line 187). -/
def pollIntervalMs : Nat := 10000

/-- Default retries parameter of retryMineBlock (miner.js line 160). -/
def defaultRetries : Nat := 3

/-- Default delay parameter of retryMineBlock in milliseconds (miner.js line 160). -/
def defaultRetryDelay : Nat := 12000

/-- The block reward transaction pushed by mineBlock when the transaction
list is empty (miner.js lines 84-89). -/
def rewardTransaction (minerAddress : String) : Transaction :=
  Transaction.rewardTx 512 "Coinbase" minerAddress true

/-- Transaction-list preparation step of mineBlock (miner.js lines 83-91):
if the list is empty, the reward transaction is pushed onto it; otherwise
it is left untouched. -/
def prepareTransactions (minerAddress : String) (transactions : List Transaction) :
    List Transaction :=
  if transactions.length = 0 then transactions ++ [rewardTransaction minerAddress]
  else transactions

/-- JSON escaping of a single character, as done by JSON.stringify for the
quote and backslash characters (control-character escapes are elided since
no claim depends on them). -/
def jsonEscapeChar (c : Char) : String :=
  if c = '"' then "\\\"" else if c = '\\' then "\\\\" else String.singleton c

/-- JSON serialization of a string value. -/
def jsonString (s : String) : String :=
  "\"" ++ String.join (s.data.map jsonEscapeChar) ++ "\""

/-- JSON serialization of one transaction. A reward transaction serializes to
an object with the field order Holly$, Transmitter, Target, BlockReward in
which it is constructed (miner.js lines 84-89); an opaque pending transaction
carries its own serialization. -/
def serializeTransaction : Transaction → String
  | Transaction.rewardTx amount transmitter targetAddr flag =>
      "\x7b\"Holly$\":" ++ toString amount ++
        ",\"Transmitter\":" ++ jsonString transmitter ++
        ",\"Target\":" ++ jsonString targetAddr ++
        ",\"BlockReward\":" ++ (if flag then "true" else "false") ++ "\x7d"
  | Transaction.pendingTx payload => payload

/-- JSON serialization of a transaction array. -/
def serializeTransactions (transactions : List Transaction) : String :=
  "[" ++ String.intercalate "," (transactions.map serializeTransaction) ++ "]"

/-- The block header computed by mineProofOfWorkParallel (miner.js lines
117-121): JSON.stringify of the object with fields minerAddress,
transactions and difficulty, in that order. -/
def serializeHeader (minerAddress : String) (transactions : List Transaction)
    (difficulty : Nat) : String :=
  "\x7b\"minerAddress\":" ++ jsonString minerAddress ++
    ",\"transactions\":" ++ serializeTransactions transactions ++
    ",\"difficulty\":" ++ toString difficulty ++ "\x7d"

/-- Ambient nondeterministic inputs available to the process: the wall clock
read by new Date() (miner.js line 42) and a seed standing for any other
source of randomness.  The header construction receives them so that
independence from them is an explicit theorem rather than a convention. -/
structure Ambient where
  nowIso : String
  randomSeed : Nat

/-- Header assembly in the presence of the ambient environment: the source
expression JSON.stringify of minerAddress, transactions and difficulty
(miner.js lines 117-121) mentions neither the clock nor any randomness,
so the embedding discards the Ambient argument exactly as the source does. -/
def blockHeaderAt (_amb : Ambient) (minerAddress : String)
    (transactions : List Transaction) (difficulty : Nat) : String :=
  serializeHeader minerAddress transactions difficulty

/-- The difficulty target: a string of difficulty zero characters
(miner.js line 123). -/
def zeroTarget (difficulty : Nat) : String :=
  String.mk (List.replicate difficulty '0')

/-- Starting nonce offset of the worker with the given thread index
(miner.js line 146). -/
def startingNonce (threadIndex : Nat) : Nat :=
  threadIndex * 1000000

/-- The do-while search loop of mineSingleTask (miner.js lines 150-154):
from the current nonce, increment, hash the header concatenated with the
decimal representation of the nonce, and stop when the first
target-length characters of the digest equal the target.  The extra fuel
argument bounds the number of iterations the embedding may take; none
models a loop that has not terminated yet. -/
def mineLoop (H : String → String) (blockHeader target : String) :
    Nat → Nat → Option MiningResult
  | _, 0 => none
  | nonce, fuel + 1 =>
    if (H (blockHeader ++ toString (nonce + 1))).take target.length = target then
      some ⟨nonce + 1, H (blockHeader ++ toString (nonce + 1))⟩
    else
      mineLoop H blockHeader target (nonce + 1) fuel

/-- A single mining task (miner.js lines 145-157): run the search loop from
the thread's starting offset. -/
def mineSingleTask (H : String → String) (blockHeader target : String)
    (threadIndex fuel : Nat) : Option MiningResult :=
  mineLoop H blockHeader target (startingNonce threadIndex) fuel

/-- The array of mining tasks spawned by the coordinator (miner.js lines
126-128): one task per thread index 0, ..., parallelThreads - 1. -/
def miningTaskResults (H : String → String) (blockHeader target : String)
    (fuel : Nat) : List (Option MiningResult) :=
  (List.range parallelThreads).map (fun index => mineSingleTask H blockHeader target index fuel)

/-- The re-validation predicate applied by the coordinator to completed
results (miner.js line 134): the first difficulty characters of the hash
must equal the target. -/
def validMiningResult (difficulty : Nat) (result : MiningResult) : Bool :=
  result.hash.take difficulty == zeroTarget difficulty

/-- The selection step of the coordinator after Promise.all resolves
(miner.js lines 131-141): find the first result satisfying the target and
build the mined block from it, or throw the mining-failure error. -/
def selectMinedBlock (transactions : List Transaction) (difficulty : Nat)
    (results : List MiningResult) : Except String MinedBlock :=
  match results.find? (fun result => validMiningResult difficulty result) with
  | some validResult => Except.ok ⟨transactions, validResult.nonce, validResult.hash⟩
  | none => Except.error "Failed to mine block after all parallel threads"

/-- mineProofOfWorkParallel (miner.js lines 114-142): build the header and
target, spawn all tasks, await them all with Promise.all, then select the
first valid result.  The outer Option models Promise.all: the coordinator
produces nothing until every worker has completed, which in the fuel
embedding means every task returned some result. -/
def mineProofOfWorkParallel (H : String → String) (minerAddress : String)
    (transactions : List Transaction) (difficulty fuel : Nat) :
    Option (Except String MinedBlock) :=
  if (miningTaskResults H (serializeHeader minerAddress transactions difficulty)
        (zeroTarget difficulty) fuel).all Option.isSome then
    some (selectMinedBlock transactions difficulty
      ((miningTaskResults H (serializeHeader minerAddress transactions difficulty)
          (zeroTarget difficulty) fuel).filterMap id))
  else
    none

/-- Body of the first submission POST built by mineBlock (miner.js lines
97-102): minerAddress, transactions, nonce and hash, in that order. -/
def blockDataBody (minerAddress : String) (minedBlock : MinedBlock) :
    List (String × Jval) :=
  [("minerAddress", Jval.jstr minerAddress),
   ("transactions", Jval.jtxs minedBlock.transactions),
   ("nonce", Jval.jnum minedBlock.nonce),
   ("hash", Jval.jstr minedBlock.hash)]

/-- Body of each retry POST in retryMineBlock (miner.js lines 164-166):
only the miner address. -/
def retryRequestBody (minerAddress : String) : List (String × Jval) :=
  [("minerAddress", Jval.jstr minerAddress)]

/-- Observable outcome of one successful mineBlock round: the header that
was hashed, the mined block, and the body posted to the mining endpoint. -/
structure RoundOutcome where
  blockHeader : String
  minedBlock : MinedBlock
  blockData : List (String × Jval)
  deriving DecidableEq

/-- The mineBlock pipeline (miner.js lines 79-111) up to the submission
POST: prepare the transaction list (reward injection on empty input), run
the parallel proof of work on it, and on success record the header used,
the mined block, and the blockData payload sent to the API. -/
def mineBlockRound (H : String → String) (minerAddress : String)
    (transactions : List Transaction) (difficulty fuel : Nat) :
    Option (Except String RoundOutcome) :=
  (mineProofOfWorkParallel H minerAddress (prepareTransactions minerAddress transactions)
      difficulty fuel).map
    (fun res => res.map (fun minedBlock =>
      ⟨serializeHeader minerAddress (prepareTransactions minerAddress transactions) difficulty,
       minedBlock,
       blockDataBody minerAddress minedBlock⟩))

/-- Observable events of the retry loop in retryMineBlock (miner.js lines
160-179): a POST for a numbered attempt carrying its request body, a sleep
of a given duration, a success log with the confirmed block hash, or the
terminal all-attempts-failed abort log. -/
inductive RetryEvent where
  | attemptPost : Nat → List (String × Jval) → RetryEvent
  | sleepFor : Nat → RetryEvent
  | retrySuccess : String → RetryEvent
  | abortAll : RetryEvent
  deriving DecidableEq

/-- Recognizer for attempt events. -/
def isAttemptEvent : RetryEvent → Bool
  | RetryEvent.attemptPost _ _ => true
  | _ => false

/-- Trace of the retry for-loop body over the remaining attempt numbers
(miner.js lines 161-178).  Each iteration posts the minimal retry body; on
success the loop returns, on failure it sleeps for the fixed delay when
attempt is less than retries (line 171) and otherwise logs the terminal
abort.  The submit argument models the outcome of each axios.post call. -/
def retryRun (minerAddress : String) (submit : Nat → Except String String)
    (retries delay : Nat) : List Nat → List RetryEvent
  | [] => []
  | attempt :: rest =>
    match submit attempt with
    | Except.ok blockHash =>
        [RetryEvent.attemptPost attempt (retryRequestBody minerAddress),
         RetryEvent.retrySuccess blockHash]
    | Except.error _ =>
        RetryEvent.attemptPost attempt (retryRequestBody minerAddress) ::
          (if attempt < retries then
            RetryEvent.sleepFor delay :: retryRun minerAddress submit retries delay rest
          else
            [RetryEvent.abortAll])

/-- retryMineBlock (miner.js lines 160-179): the for loop runs attempt over
1, ..., retries. -/
def retryMineBlock (minerAddress : String) (submit : Nat → Except String String)
    (retries delay : Nat) : List RetryEvent :=
  retryRun minerAddress submit retries delay (List.range' 1 retries)

/-- Scheduler state of the process: how many startMining rounds are
currently in flight (started by a timer tick and not yet completed). -/
structure MinerSched where
  inFlightRounds : Nat
  deriving DecidableEq

/-- Events driving the scheduler: the setInterval timer fires (miner.js
line 187), or a previously started round finishes. -/
inductive MinerEvent where
  | intervalTick : MinerEvent
  | roundFinished : MinerEvent
  deriving DecidableEq

/-- Effect of one event on the scheduler state.  setInterval invokes the
async startMining on every tick; neither line 187 nor startMining (lines
41-58) consults any busy flag, so a tick unconditionally starts one more
round, and a completion retires one. -/
def minerSchedStep : MinerSched → MinerEvent → MinerSched
  | s, MinerEvent.intervalTick => ⟨s.inFlightRounds + 1⟩
  | s, MinerEvent.roundFinished => ⟨s.inFlightRounds - 1⟩

/-- Scheduler state reached from process start after a sequence of events. -/
def minerSchedRun (events : List MinerEvent) : MinerSched :=
  events.foldl minerSchedStep ⟨0⟩

/-- A digest function that maps everything to the empty string; used as a
concrete instance for difficulty-zero evaluations. -/
def emptyHash : String → String := fun _ => ""

/-- A digest function that maps everything to "0000"; under it every nonce
satisfies difficulty 4 at the first trial. -/
def constHash : String → String := fun _ => "0000"

/-- A digest function under which, for header "h", nonces 1 and 2 miss the
difficulty-1 target and nonce 3 hits it. -/
def sampleHash : String → String := fun s => if s = "h3" then "0" else "1"

/-- A submission stub for which every POST fails. -/
def alwaysFailSubmit : Nat → Except String String :=
  fun _ => Except.error "submission failed"

/-- The mined block produced in the difficulty-zero sample round for miner
address "abc123" with no pending transactions. -/
def sampleRewardBlock : MinedBlock :=
  ⟨[Transaction.rewardTx 512 "Coinbase" "abc123" true], 1, ""⟩

/-- The round outcome produced in the difficulty-zero sample round. -/
def sampleRoundOutcome : RoundOutcome :=
  ⟨serializeHeader "abc123" [Transaction.rewardTx 512 "Coinbase" "abc123" true] 0,
   sampleRewardBlock,
   blockDataBody "abc123" sampleRewardBlock⟩

/-- The target string has exactly difficulty characters. -/
theorem zeroTarget_length (difficulty : Nat) : (zeroTarget difficulty).length = difficulty := by
  simp [zeroTarget, String.length]

/-- Soundness of the search loop: any returned result consists of a nonce
together with the digest recomputed from the header and that nonce, and
that digest matches the target on its first target-length characters. -/
theorem mineLoop_sound (H : String → String) (blockHeader target : String) :
    ∀ (fuel nonce : Nat) (r : MiningResult),
      mineLoop H blockHeader target nonce fuel = some r →
      r.hash = H (blockHeader ++ toString r.nonce) ∧
      r.hash.take target.length = target := by
  intro fuel
  induction fuel with
  | zero =>
      intro nonce r h
      simp [mineLoop] at h
  | succ n ih =>
      intro nonce r h
      rw [mineLoop] at h
      by_cases hc : (H (blockHeader ++ toString (nonce + 1))).take target.length = target
      · rw [if_pos hc] at h
        cases h
        exact ⟨rfl, hc⟩
      · rw [if_neg hc] at h
        exact ih (nonce + 1) r h

/-- Minimality of the search loop: a returned nonce is strictly above the
starting value, every nonce strictly between the start and the returned
one fails the target comparison, and the returned nonce passes it. -/
theorem mineLoop_least (H : String → String) (blockHeader target : String) :
    ∀ (fuel start : Nat) (r : MiningResult),
      mineLoop H blockHeader target start fuel = some r →
      start < r.nonce ∧
      (∀ m, start < m → m < r.nonce →
        (H (blockHeader ++ toString m)).take target.length ≠ target) ∧
      (H (blockHeader ++ toString r.nonce)).take target.length = target := by
  intro fuel
  induction fuel with
  | zero =>
      intro start r h
      simp [mineLoop] at h
  | succ n ih =>
      intro start r h
      rw [mineLoop] at h
      by_cases hc : (H (blockHeader ++ toString (start + 1))).take target.length = target
      · rw [if_pos hc] at h
        cases h
        refine ⟨Nat.lt_succ_self start, ?_, hc⟩
        intro m hm1 hm2
        dsimp only at hm2
        omega
      · rw [if_neg hc] at h
        obtain ⟨h1, h2, h3⟩ := ih (start + 1) r h
        refine ⟨by omega, ?_, h3⟩
        intro m hm1 hm2
        rcases Nat.eq_or_lt_of_le hm1 with heq | hlt
        · subst heq
          exact hc
        · exact h2 m hlt hm2

/-- Splitting lemma for find?: a found element splits the list into a
prefix part on which the predicate is everywhere false, the element, and
the rest. -/
theorem findFirstSplit {α : Type} (p : α → Bool) :
    ∀ (l : List α) (a : α), l.find? p = some a →
      ∃ pre post, l = pre ++ a :: post ∧ ∀ x ∈ pre, p x = false := by
  intro l
  induction l with
  | nil =>
      intro a h
      simp at h
  | cons x xs ih =>
      intro a h
      by_cases hx : p x
      · rw [List.find?_cons_of_pos _ hx] at h
        cases h
        exact ⟨[], xs, rfl, by intro y hy; cases hy⟩
      · rw [List.find?_cons_of_neg _ hx] at h
        obtain ⟨pre, post, hsplit, hpre⟩ := ih a h
        refine ⟨x :: pre, post, by rw [hsplit]; rfl, ?_⟩
        intro y hy
        rcases List.mem_cons.mp hy with rfl | hy'
        · simpa using hx
        · exact hpre y hy'

/-- Inversion of the coordinator's selection step on success: the block
keeps the given transaction list and its nonce and hash come from the
first valid result found. -/
theorem selectMinedBlock_ok (transactions : List Transaction) (difficulty : Nat)
    (results : List MiningResult) (b : MinedBlock)
    (h : selectMinedBlock transactions difficulty results = Except.ok b) :
    b.transactions = transactions ∧
    results.find? (fun r => validMiningResult difficulty r) =
      some (MiningResult.mk b.nonce b.hash) := by
  unfold selectMinedBlock at h
  cases hfind : results.find? (fun r => validMiningResult difficulty r) with
  | none =>
      rw [hfind] at h
      cases h
  | some v =>
      rw [hfind] at h
      cases h
      exact ⟨rfl, rfl⟩

/-- Inversion of the coordinator on success: the selected block is the one
computed by the selection step over the completed results. -/
theorem mineProofOfWorkParallel_ok_select (H : String → String) (minerAddress : String)
    (transactions : List Transaction) (difficulty fuel : Nat) (b : MinedBlock)
    (h : mineProofOfWorkParallel H minerAddress transactions difficulty fuel =
      some (Except.ok b)) :
    selectMinedBlock transactions difficulty
      ((miningTaskResults H (serializeHeader minerAddress transactions difficulty)
          (zeroTarget difficulty) fuel).filterMap id) = Except.ok b := by
  unfold mineProofOfWorkParallel at h
  by_cases hc : (miningTaskResults H (serializeHeader minerAddress transactions difficulty)
      (zeroTarget difficulty) fuel).all Option.isSome
  · rw [if_pos hc] at h
    exact Option.some.inj h
  · rw [if_neg hc] at h
    cases h

/-- C1: for every difficulty, header and worker index, a result returned by
the nonce search worker consists of a nonce whose recomputed digest is
exactly the result's hash, and the first difficulty characters of that
hash are all zero characters. -/
theorem mineSingleTask_returns_valid_result (H : String → String) (blockHeader : String)
    (difficulty threadIndex fuel : Nat) (r : MiningResult)
    (h : mineSingleTask H blockHeader (zeroTarget difficulty) threadIndex fuel = some r) :
    r.hash = H (blockHeader ++ toString r.nonce) ∧
    r.hash.take difficulty = zeroTarget difficulty := by
  have hs := mineLoop_sound H blockHeader (zeroTarget difficulty) fuel
    (startingNonce threadIndex) r h
  rwa [zeroTarget_length] at hs

/-- Witness for C1: under the constant empty digest at difficulty zero,
worker 0 returns nonce 1 with the empty hash, and the conclusions hold. -/
theorem mineSingleTask_returns_valid_result_witness :
    (MiningResult.mk 1 "").hash = emptyHash ("header" ++ toString (MiningResult.mk 1 "").nonce) ∧
    (MiningResult.mk 1 "").hash.take 0 = zeroTarget 0 :=
  mineSingleTask_returns_valid_result emptyHash "header" 0 0 1 (MiningResult.mk 1 "") (by rfl)

/-- C2: assembling with an empty transaction list yields exactly the one
reward transaction targeting the miner address, and assembling with a
one-element list leaves it unchanged with no reward injected. -/
theorem assemble_reward_injection (addr : String) (tx1 : Transaction) :
    prepareTransactions addr [] = [Transaction.rewardTx 512 "Coinbase" addr true] ∧
    (prepareTransactions addr []).length = 1 ∧
    prepareTransactions addr [tx1] = [tx1] ∧
    (prepareTransactions addr [tx1]).length = 1 := by
  refine ⟨rfl, rfl, ?_, ?_⟩ <;> simp [prepareTransactions]

/-- C3: header assembly is deterministic; the header bytes do not depend on
the ambient wall clock or randomness, and identical inputs always give the
same serialization. -/
theorem header_serialization_deterministic (a1 a2 : Ambient) (addr : String)
    (txs : List Transaction) (d : Nat) :
    blockHeaderAt a1 addr txs d = blockHeaderAt a2 addr txs d ∧
    blockHeaderAt a1 addr txs d = serializeHeader addr txs d :=
  ⟨rfl, rfl⟩

/-- C9: a worker returns the least qualifying nonce above its starting
offset: the nonce is strictly greater than threadIndex * 1000000, every
nonce strictly between the offset and the returned one fails the target,
the returned one passes it, and distinct workers' starting offsets are
strictly increasing in the worker index. -/
theorem worker_least_nonce_and_disjoint_starts (H : String → String) (blockHeader : String)
    (difficulty threadIndex fuel : Nat) (r : MiningResult)
    (h : mineSingleTask H blockHeader (zeroTarget difficulty) threadIndex fuel = some r) :
    startingNonce threadIndex < r.nonce ∧
    (∀ m, startingNonce threadIndex < m → m < r.nonce →
      (H (blockHeader ++ toString m)).take difficulty ≠ zeroTarget difficulty) ∧
    (H (blockHeader ++ toString r.nonce)).take difficulty = zeroTarget difficulty ∧
    (∀ i j : Nat, i < j → startingNonce i < startingNonce j) := by
  have hl := mineLoop_least H blockHeader (zeroTarget difficulty) fuel
    (startingNonce threadIndex) r h
  rw [zeroTarget_length] at hl
  obtain ⟨h1, h2, h3⟩ := hl
  refine ⟨h1, h2, h3, ?_⟩
  intro i j hij
  exact mul_lt_mul_of_pos_right hij (by norm_num)

/-- Witness for C9: under sampleHash with header "h" at difficulty 1,
worker 0 returns nonce 3, which is above offset 0 and passes the target. -/
theorem worker_least_nonce_and_disjoint_starts_witness :
    startingNonce 0 < (MiningResult.mk 3 "0").nonce ∧
    (sampleHash ("h" ++ toString (MiningResult.mk 3 "0").nonce)).take 1 = zeroTarget 1 :=
  ⟨(worker_least_nonce_and_disjoint_starts sampleHash "h" 1 0 3 (MiningResult.mk 3 "0")
      (by decide)).1,
   (worker_least_nonce_and_disjoint_starts sampleHash "h" 1 0 3 (MiningResult.mk 3 "0")
      (by decide)).2.2.1⟩

/-- Counterexample to C4: under the constant digest "0000" at difficulty 4
with one unit of fuel, worker 0 finds a valid result on its very first
trial, yet workers 1, 2 and 3 are not cancelled: every one of the four
tasks runs to completion and returns a result of its own, because the
coordinator awaits Promise.all over all tasks (miner.js line 131) and has
no cancellation channel at all. -/
theorem no_cancellation_counterexample :
    validMiningResult 4 (MiningResult.mk 1 "0000") = true ∧
    (miningTaskResults constHash "hdr" (zeroTarget 4) 1).all Option.isSome = true ∧
    miningTaskResults constHash "hdr" (zeroTarget 4) 1 =
      [some (MiningResult.mk 1 "0000"), some (MiningResult.mk 1000001 "0000"),
       some (MiningResult.mk 2000001 "0000"), some (MiningResult.mk 3000001 "0000")] :=
  ⟨rfl, rfl, rfl⟩

/-- C4 as amended: the coordinator does not cancel anything; it waits for
all workers (it produces no output while any task is still unresolved) and
then uses exactly one result: the first valid one in worker order, with
every earlier completed result failing the target and all remaining
results discarded. -/
theorem coordinator_waits_for_all_single_winner (H : String → String) (minerAddress : String)
    (transactions : List Transaction) (difficulty fuel : Nat) :
    (¬ (miningTaskResults H (serializeHeader minerAddress transactions difficulty)
          (zeroTarget difficulty) fuel).all Option.isSome →
        mineProofOfWorkParallel H minerAddress transactions difficulty fuel = none) ∧
    (∀ b : MinedBlock,
        mineProofOfWorkParallel H minerAddress transactions difficulty fuel =
          some (Except.ok b) →
        b.transactions = transactions ∧
        ∃ pre post,
          (miningTaskResults H (serializeHeader minerAddress transactions difficulty)
              (zeroTarget difficulty) fuel).filterMap id =
            pre ++ MiningResult.mk b.nonce b.hash :: post ∧
          validMiningResult difficulty (MiningResult.mk b.nonce b.hash) = true ∧
          ∀ r ∈ pre, validMiningResult difficulty r = false) := by
  constructor
  · intro hc
    unfold mineProofOfWorkParallel
    rw [if_neg hc]
  · intro b hb
    have hsel := mineProofOfWorkParallel_ok_select H minerAddress transactions difficulty fuel b hb
    obtain ⟨hbt, hfind⟩ := selectMinedBlock_ok transactions difficulty _ b hsel
    obtain ⟨pre, post, hsplit, hpre⟩ := findFirstSplit _ _ _ hfind
    refine ⟨hbt, pre, post, hsplit, ?_, hpre⟩
    have hv := List.find?_some hfind
    simpa using hv

/-- Witness for C4's amended theorem: with no fuel the coordinator is still
waiting, and in the constant-digest run worker 0's first-trial result is
the single winner. -/
theorem coordinator_waits_for_all_single_winner_witness :
    mineProofOfWorkParallel constHash "a" [] 4 0 = none ∧
    (MinedBlock.mk [] 1 "0000").transactions = ([] : List Transaction) :=
  ⟨(coordinator_waits_for_all_single_winner constHash "a" [] 4 0).1 (by decide),
   ((coordinator_waits_for_all_single_winner constHash "a" [] 4 1).2
      (MinedBlock.mk [] 1 "0000") (by rfl)).1⟩

/-- C6: if none of the completed results passes the difficulty target the
coordinator signals the distinct mining-failure error rather than
returning a block, and any block it does return keeps the given
transaction list and carries the nonce and hash of a completed result
that is re-validated against the target. -/
theorem coordinator_mining_failed_or_block (transactions : List Transaction)
    (difficulty : Nat) (results : List MiningResult) :
    ((∀ r ∈ results, validMiningResult difficulty r = false) →
        selectMinedBlock transactions difficulty results =
          Except.error "Failed to mine block after all parallel threads") ∧
    (∀ b : MinedBlock,
        selectMinedBlock transactions difficulty results = Except.ok b →
        b.transactions = transactions ∧
        validMiningResult difficulty (MiningResult.mk b.nonce b.hash) = true ∧
        MiningResult.mk b.nonce b.hash ∈ results) := by
  constructor
  · intro hall
    have hnone : results.find? (fun r => validMiningResult difficulty r) = none := by
      rw [List.find?_eq_none]
      intro x hx
      simp [hall x hx]
    unfold selectMinedBlock
    rw [hnone]
  · intro b hb
    obtain ⟨hbt, hfind⟩ := selectMinedBlock_ok transactions difficulty results b hb
    refine ⟨hbt, ?_, List.mem_of_find?_eq_some hfind⟩
    have hv := List.find?_some hfind
    simpa using hv

/-- Witness for C6: a single completed result that misses the difficulty-1
target makes the coordinator signal the mining-failure error. -/
theorem coordinator_mining_failed_or_block_witness :
    selectMinedBlock [] 1 [MiningResult.mk 5 "ffff"] =
      Except.error "Failed to mine block after all parallel threads" :=
  (coordinator_mining_failed_or_block [] 1 [MiningResult.mk 5 "ffff"]).1 (by decide)

/-- Every attempt event in a retry trace carries the minimal retry body. -/
theorem retryRun_attempt_body (minerAddress : String) (submit : Nat → Except String String)
    (retries delay : Nat) :
    ∀ (attempts : List Nat) (n : Nat) (body : List (String × Jval)),
      RetryEvent.attemptPost n body ∈ retryRun minerAddress submit retries delay attempts →
      body = retryRequestBody minerAddress := by
  intro attempts
  induction attempts with
  | nil =>
      intro n body h
      simp [retryRun] at h
  | cons a rest ih =>
      intro n body h
      cases e : submit a with
      | ok v =>
          simp only [retryRun, e, List.mem_cons, List.not_mem_nil, or_false] at h
          rcases h with h | h
          · exact (RetryEvent.attemptPost.injEq _ _ _ _).mp h |>.2
          · cases h
      | error m =>
          simp only [retryRun, e, List.mem_cons] at h
          rcases h with h | h
          · exact (RetryEvent.attemptPost.injEq _ _ _ _).mp h |>.2
          · by_cases ha : a < retries
            · rw [if_pos ha] at h
              rcases List.mem_cons.mp h with h' | h'
              · cases h'
              · exact ih n body h'
            · rw [if_neg ha] at h
              rcases List.mem_cons.mp h with h' | h'
              · cases h'
              · cases h'

/-- The number of attempt events in a retry trace is bounded by the number
of remaining loop iterations. -/
theorem retryRun_countP_le (minerAddress : String) (submit : Nat → Except String String)
    (retries delay : Nat) :
    ∀ attempts : List Nat,
      (retryRun minerAddress submit retries delay attempts).countP isAttemptEvent ≤
        attempts.length := by
  intro attempts
  induction attempts with
  | nil => simp [retryRun]
  | cons a rest ih =>
      cases e : submit a with
      | ok v =>
          simp [retryRun, e, List.countP_cons, isAttemptEvent]
      | error m =>
          by_cases ha : a < retries
          · have hrec := ih
            simp [retryRun, e, ha, List.countP_cons, isAttemptEvent]
            omega
          · simp [retryRun, e, if_neg ha, List.countP_cons, isAttemptEvent]

/-- C5: when every submission attempt fails, the retry controller with the
default configuration performs exactly three attempts, sleeps the fixed
12000 ms delay between consecutive attempts, reports the terminal abort
after the last failed attempt, and does nothing further; and for any
configuration the number of attempts never exceeds the retries bound. -/
theorem retry_bounded_attempts (minerAddress : String) (submit : Nat → Except String String)
    (h : ∀ a, (submit a).isOk = false) :
    retryMineBlock minerAddress submit defaultRetries defaultRetryDelay =
      [RetryEvent.attemptPost 1 (retryRequestBody minerAddress),
       RetryEvent.sleepFor defaultRetryDelay,
       RetryEvent.attemptPost 2 (retryRequestBody minerAddress),
       RetryEvent.sleepFor defaultRetryDelay,
       RetryEvent.attemptPost 3 (retryRequestBody minerAddress),
       RetryEvent.abortAll] ∧
    (∀ retries delay : Nat,
        (retryMineBlock minerAddress submit retries delay).countP isAttemptEvent ≤ retries) := by
  constructor
  · have h1 := h 1
    have h2 := h 2
    have h3 := h 3
    cases e1 : submit 1 with
    | ok v => rw [e1] at h1; simp [Except.isOk, Except.toBool] at h1
    | error m1 =>
        cases e2 : submit 2 with
        | ok v => rw [e2] at h2; simp [Except.isOk, Except.toBool] at h2
        | error m2 =>
            cases e3 : submit 3 with
            | ok v => rw [e3] at h3; simp [Except.isOk, Except.toBool] at h3
            | error m3 =>
                have hr : List.range' 1 defaultRetries = [1, 2, 3] := rfl
                unfold retryMineBlock
                rw [hr]
                simp [retryRun, e1, e2, e3, defaultRetries]
  · intro retries delay
    calc (retryMineBlock minerAddress submit retries delay).countP isAttemptEvent
        ≤ (List.range' 1 retries).length :=
          retryRun_countP_le minerAddress submit retries delay (List.range' 1 retries)
      _ = retries := List.length_range' 1 1 retries

/-- Witness for C5: with the always-failing submission stub the default
retry run produces the three-attempt trace ending in the terminal abort. -/
theorem retry_bounded_attempts_witness :
    retryMineBlock "abc123" alwaysFailSubmit defaultRetries defaultRetryDelay =
      [RetryEvent.attemptPost 1 (retryRequestBody "abc123"),
       RetryEvent.sleepFor defaultRetryDelay,
       RetryEvent.attemptPost 2 (retryRequestBody "abc123"),
       RetryEvent.sleepFor defaultRetryDelay,
       RetryEvent.attemptPost 3 (retryRequestBody "abc123"),
       RetryEvent.abortAll] :=
  (retry_bounded_attempts "abc123" alwaysFailSubmit (fun _ => rfl)).1

/-- C8: every retry attempt posts a body holding only the minerAddress
field, omitting transactions, nonce and hash, whereas the first submission
posted by mineBlock carries all four fields in order. -/
theorem retry_minimal_payload (minerAddress : String) (submit : Nat → Except String String)
    (retries delay n : Nat) (body : List (String × Jval)) (b : MinedBlock)
    (h : RetryEvent.attemptPost n body ∈ retryMineBlock minerAddress submit retries delay) :
    body = retryRequestBody minerAddress ∧
    body.map Prod.fst = ["minerAddress"] ∧
    List.lookup "transactions" body = none ∧
    List.lookup "nonce" body = none ∧
    List.lookup "hash" body = none ∧
    (blockDataBody minerAddress b).map Prod.fst =
      ["minerAddress", "transactions", "nonce", "hash"] := by
  have hb := retryRun_attempt_body minerAddress submit retries delay
    (List.range' 1 retries) n body h
  subst hb
  exact ⟨rfl, rfl, rfl, rfl, rfl, rfl⟩

/-- Witness for C8: the first retry attempt of the always-failing run posts
the minimal body, whose only key is minerAddress. -/
theorem retry_minimal_payload_witness :
    (retryRequestBody "abc123").map Prod.fst = ["minerAddress"] ∧
    List.lookup "transactions" (retryRequestBody "abc123") = none := by
  have h := retry_minimal_payload "abc123" alwaysFailSubmit 3 12000 1
    (retryRequestBody "abc123") (MinedBlock.mk [] 0 "") (by decide)
  exact ⟨h.2.1, h.2.2.1⟩

/-- Counterexample to C7: two timer ticks with no completion in between
leave two rounds in flight, so the claim that a new round is never run
concurrently with an unfinished one is false of the code: setInterval
fires startMining unconditionally and no skip or queue guard exists. -/
theorem overlapping_rounds_counterexample :
    (minerSchedRun [MinerEvent.intervalTick, MinerEvent.intervalTick]).inFlightRounds = 2 ∧
    ¬ (∀ events : List MinerEvent, (minerSchedRun events).inFlightRounds ≤ 1) := by
  constructor
  · rfl
  · intro hall
    have h2 := hall [MinerEvent.intervalTick, MinerEvent.intervalTick]
    have he : (minerSchedRun [MinerEvent.intervalTick, MinerEvent.intervalTick]).inFlightRounds
        = 2 := rfl
    rw [he] at h2
    omega

/-- C7 as amended: the periodic trigger starts a new round on every tick
unconditionally, regardless of how many rounds are still in flight, so
overlapping rounds are possible; the interval is the fixed 10000 ms. -/
theorem interval_tick_unconditional (s : MinerSched) :
    (minerSchedStep s MinerEvent.intervalTick).inFlightRounds = s.inFlightRounds + 1 ∧
    pollIntervalMs = 10000 :=
  ⟨rfl, rfl⟩

/-- C10: in a round with no pending transactions, the prepared list is
exactly the reward transaction with fields Holly$ 512, Transmitter
"Coinbase", Target minerAddress and BlockReward true, and that same
one-element list is the one serialized into the mined header, carried in
the mined block, and placed in the transactions field of the submission
payload. -/
theorem mined_reward_block_consistency (H : String → String) (minerAddress : String)
    (difficulty fuel : Nat) (out : RoundOutcome)
    (h : mineBlockRound H minerAddress [] difficulty fuel = some (Except.ok out)) :
    prepareTransactions minerAddress [] =
      [Transaction.rewardTx 512 "Coinbase" minerAddress true] ∧
    out.minedBlock.transactions = [Transaction.rewardTx 512 "Coinbase" minerAddress true] ∧
    out.blockHeader =
      serializeHeader minerAddress [Transaction.rewardTx 512 "Coinbase" minerAddress true]
        difficulty ∧
    List.lookup "transactions" out.blockData =
      some (Jval.jtxs [Transaction.rewardTx 512 "Coinbase" minerAddress true]) := by
  unfold mineBlockRound at h
  cases e : mineProofOfWorkParallel H minerAddress (prepareTransactions minerAddress [])
      difficulty fuel with
  | none =>
      rw [e] at h
      cases h
  | some res =>
      rw [e] at h
      cases res with
      | error msg => simp [Except.map] at h
      | ok b =>
          simp only [Option.map_some', Except.map] at h
          have hout := (Option.some.inj h)
          have hb : b.transactions = prepareTransactions minerAddress [] :=
            (selectMinedBlock_ok _ _ _ _
              (mineProofOfWorkParallel_ok_select H minerAddress _ difficulty fuel b e)).1
          have hprep : prepareTransactions minerAddress [] =
              [Transaction.rewardTx 512 "Coinbase" minerAddress true] := rfl
          have hout' := (Except.ok.inj hout)
          subst hout'
          refine ⟨hprep, ?_, ?_, ?_⟩
          · show b.transactions = _
            rw [hb, hprep]
          · show serializeHeader minerAddress (prepareTransactions minerAddress []) difficulty = _
            rw [hprep]
          · show List.lookup "transactions" (blockDataBody minerAddress b) = _
            have hlk : List.lookup "transactions" (blockDataBody minerAddress b) =
                some (Jval.jtxs b.transactions) := rfl
            rw [hlk, hb, hprep]

/-- Witness for C10: the difficulty-zero sample round for address "abc123"
succeeds with the reward-only transaction list everywhere. -/
theorem mined_reward_block_consistency_witness :
    prepareTransactions "abc123" [] = [Transaction.rewardTx 512 "Coinbase" "abc123" true] ∧
    sampleRoundOutcome.minedBlock.transactions =
      [Transaction.rewardTx 512 "Coinbase" "abc123" true] ∧
    sampleRoundOutcome.blockHeader =
      serializeHeader "abc123" [Transaction.rewardTx 512 "Coinbase" "abc123" true] 0 ∧
    List.lookup "transactions" sampleRoundOutcome.blockData =
      some (Jval.jtxs [Transaction.rewardTx 512 "Coinbase" "abc123" true]) :=
  mined_reward_block_consistency emptyHash "abc123" 0 1 sampleRoundOutcome (by rfl)

end Miner
